import Mathlib

/-!
Verification of the Windows cache-manager plugins of `rekall-core`
(`rekall/plugins/windows/cache.py`): the VACB enumerator, the
backing-store walker (`DumpFiles._dump_ca`), the file reconstructor
(`DumpFiles.render`) and the MFT tree builder (`MftDump`).

The Python code is shallowly embedded: kernel structures become Lean
structures, generators become lists, the mutable per-run state becomes
explicit state passing, and the one place the code can raise becomes an
`Except` value.
-/

namespace RekallCache

/-! ## VACB enumerator (`EnumerateVacbs`)

A `_VACB` slot.  `arrayHead` is the back-reference to the owning
`_VACB_ARRAY_HEADER` table (`vacb.ArrayHead`, compared by address),
`sharedCacheMap` is the address of `vacb.SharedCacheMap` (0 for NULL),
`baseAddress` is `vacb.BaseAddress` and `fileOffset` is
`vacb.Overlay.FileOffset.QuadPart`. -/
structure Vacb where
  arrayHead : Nat
  baseAddress : Nat
  sharedCacheMap : Nat
  fileOffset : Nat
deriving DecidableEq

/-- One `_VACB_ARRAY_HEADER` table of the Win7+ layout: its identity
(address / `VacbArrayIndex`) and its `VACBs` slot array. -/
structure VacbTable where
  idx : Nat
  vacbs : List Vacb
deriving DecidableEq

/-- The slots `GetVACBs_Win7` emits while scanning one table: exactly the
slots whose `ArrayHead` back-reference equals the table
(`if vacb.ArrayHead != table: continue`). -/
def win7TableEmit (t : VacbTable) : List Vacb :=
  t.vacbs.filter (fun v => v.arrayHead == t.idx)

/-- `EnumerateVacbs.GetVACBs_Win7`: walk the `CcVacbArrays` tables
(`CcVacbArraysAllocated` of them, here the length of the list) and yield
the valid slots of each. -/
def GetVACBs_Win7 (ccVacbArrays : List VacbTable) : List Vacb :=
  ccVacbArrays.flatMap win7TableEmit

/-- `EnumerateVacbs.GetVACBs_WinXP`: the legacy `CcVacbs` flat array
(`CcNumberVacbs` entries, here the length of the list) is emitted entry
by entry, unconditionally. -/
def GetVACBs_WinXP (ccVacbs : List Vacb) : List Vacb :=
  ccVacbs

/-- The kernel globals the enumerator reads.  `ccVacbs = none` models the
legacy global `CcVacbs` not resolving to a non-null value; `some arr`
models it resolving, with `arr` the array it points at (its length is
`CcNumberVacbs`).  `ccVacbArrays` models the newer `CcVacbArrays`
tables (their number is `CcVacbArraysAllocated`). -/
structure Snapshot where
  ccVacbs : Option (List Vacb)
  ccVacbArrays : List VacbTable
deriving DecidableEq

/-- `EnumerateVacbs.GetVACBs`: dispatch on whether the legacy global
`CcVacbs` resolves (`if self.session.profile.get_constant("CcVacbs")`). -/
def GetVACBs (s : Snapshot) : List Vacb :=
  match s.ccVacbs with
  | some arr => GetVACBs_WinXP arr
  | none => GetVACBs_Win7 s.ccVacbArrays

/-! ## Backing-store walker (`DumpFiles._dump_ca`) -/

/-- One `_SUBSECTION` of a control area: `StartingSector`,
`NumberOfFullSectors`, and the raw PTE values of its `SubsectionBase`
array (`pte.u.Long.v()`). -/
structure Subsection where
  startingSector : Nat
  numberOfFullSectors : Nat
  ptes : List Nat
deriving DecidableEq

/-- A `_CONTROL_AREA`: its subsection chain in
`FirstSubsection.walk_list("NextSubsection")` order. -/
structure ControlArea where
  subsections : List Subsection
deriving DecidableEq

/-- The address-space services `_dump_ca` and the VACB augmentation use.
`resolveProtoPTE = none` models a kernel address space without
`ResolveProtoPTE` (the `AttributeError` fallback path); `some f` models
the call, with `f pte = none` for "no mapping" (Python `None`).
`physEnd` is `physical_address_space.end()` and `vtop` is
`kernel_address_space.vtop` (`none` = unmapped). -/
structure AddrSpace where
  resolveProtoPTE : Option (Nat → Option Nat)
  physEnd : Nat
  vtop : Nat → Option Nat

/-- `sectors_per_page = 0x1000 / 512`. -/
def sectorsPerPage : Nat := 0x1000 / 512

/-- One emitted byte range: physical address, byte offset in the file,
and byte length (`phys_address, file_sector_offset * 512,
file_sectors_mapped_in_page * 512`). -/
structure Range where
  phys : Nat
  fileOffset : Nat
  byteLen : Nat
deriving DecidableEq

/-- Decode one raw PTE value to a physical address.  With
`ResolveProtoPTE` available the resolution is used (`none` = no
mapping); without it only a directly valid PTE (`pte & 1`) is honored
and the page-aligned physical address is masked out
(`pte_value & 0xffffffffff000`). -/
def decodePte (a : AddrSpace) (pte : Nat) : Option Nat :=
  match a.resolveProtoPTE with
  | some f => f pte
  | none => if pte &&& 1 = 1 then some (pte &&& 0xffffffffff000) else none

/-- The loop body of `_dump_ca` for page index `i` of subsection `sub`:
`none` means the page is skipped (`continue`), `some r` means range `r`
is emitted. -/
def pageRange (a : AddrSpace) (sub : Subsection) (i : Nat) (pte : Nat) :
    Option Range :=
  match decodePte a pte with
  | none => none
  | some physAddress =>
    let fileSectorOffset : Nat := sub.startingSector + i * sectorsPerPage
    let fileSectorsMappedInPage : Int :=
      min (sectorsPerPage : Int)
        ((sub.numberOfFullSectors : Int) - (i : Int) * (sectorsPerPage : Int))
    if fileSectorsMappedInPage < 0 then none
    else if physAddress > a.physEnd then none
    else some ⟨physAddress, fileSectorOffset * 512,
               fileSectorsMappedInPage.toNat * 512⟩

/-- The `for i, pte in enumerate(subsection.SubsectionBase)` loop,
starting at page index `i`. -/
def walkPtes (a : AddrSpace) (sub : Subsection) : List Nat → Nat → List Range
  | [], _ => []
  | pte :: rest, i =>
    match pageRange a sub i pte with
    | none => walkPtes a sub rest (i + 1)
    | some r => r :: walkPtes a sub rest (i + 1)

/-- All ranges `_dump_ca` emits for one subsection. -/
def dumpSubsection (a : AddrSpace) (sub : Subsection) : List Range :=
  walkPtes a sub sub.ptes 0

/-- `DumpFiles._dump_ca`: walk the subsection chain in link order. -/
def dumpCa (a : AddrSpace) (ca : ControlArea) : List Range :=
  ca.subsections.flatMap (dumpSubsection a)

/-- Total byte length of a list of emitted ranges. -/
def byteSum (l : List Range) : Nat :=
  (l.map Range.byteLen).sum

/-! ## File reconstructor (`DumpFiles.render`) -/

/-- A `_FILE_OBJECT` candidate: its device-qualified name
(`file_name_with_device()`), its optional image- and data-section
control areas (`SectionObjectPointer.ImageSectionObject` /
`.DataSectionObject`, `none` = NULL), and the address of its
`SectionObjectPointer.SharedCacheMap` (0 = NULL). -/
structure FileObject where
  fileNameWithDevice : String
  imageSectionObject : Option ControlArea
  dataSectionObject : Option ControlArea
  sharedCacheMap : Nat
deriving DecidableEq

/-- The path separator that gets replaced in output filenames. -/
def backslashChar : Char := '\\'

/-- Its replacement. -/
def underscoreChar : Char := '_'

/-- `unicode(file_object.file_name_with_device()).replace("\\", "_")`:
the pattern is the single backslash character, so the replacement is a
character-wise map. -/
def normName (fo : FileObject) : String :=
  ⟨fo.fileNameWithDevice.data.map
    (fun c => if c = backslashChar then underscoreChar else c)⟩

/-- `CollectFileObject` groups the enumerated VACBs by their non-null
`SharedCacheMap`; `self.vacb_by_cache_map.get(scm, [])` then looks one
group up, preserving enumeration order. -/
def vacbsByCacheMap (vacbs : List Vacb) (scm : Nat) : List Vacb :=
  vacbs.filter (fun v => v.sharedCacheMap != 0 && v.sharedCacheMap == scm)

/-- The VACB augmentation loop of `render`: split the 256 KB span of one
VACB into 4 KB pages, translate each page base with `vtop`, and write
only the pages that translate to a truthy (non-`None`, non-zero)
physical address. -/
def vacbRanges (a : AddrSpace) (v : Vacb) : List Range :=
  (List.range (0x40000 / 0x1000)).filterMap (fun k =>
    let offset := k * 0x1000
    match a.vtop (v.baseAddress + offset) with
    | none => none
    | some physAddress =>
      if physAddress = 0 then none
      else some ⟨physAddress, v.fileOffset + offset, 0x1000⟩)

/-- Everything `render` writes into one file object's output stream, in
write order: image section, then data section, then the cache-manager
augmentation. -/
def dumpObject (a : AddrSpace) (vacbs : List Vacb) (fo : FileObject) :
    List Range :=
  (match fo.imageSectionObject with
   | some ca => dumpCa a ca
   | none => []) ++
  (match fo.dataSectionObject with
   | some ca => dumpCa a ca
   | none => []) ++
  (vacbsByCacheMap vacbs fo.sharedCacheMap).flatMap (vacbRanges a)

/-- The `for file_object in self.file_objects` loop of `render`, with
the running `seen_filenames` set: one `(filename, stream)` pair per
file object whose normalized name was not seen before. -/
def renderLoop (a : AddrSpace) (vacbs : List Vacb) :
    List FileObject → List String → List (String × List Range)
  | [], _ => []
  | fo :: rest, seen =>
    let filename := normName fo
    if filename ∈ seen then renderLoop a vacbs rest seen
    else (filename, dumpObject a vacbs fo) ::
      renderLoop a vacbs rest (filename :: seen)

/-- `DumpFiles.render` over a given iteration order of the candidate
set `self.file_objects`, starting with `seen_filenames` empty. -/
def renderStreams (a : AddrSpace) (vacbs : List Vacb)
    (fileObjects : List FileObject) : List (String × List Range) :=
  renderLoop a vacbs fileObjects []

/-! ## MFT tree builder (`MftDump`) -/

/-- The four timestamps of a decoded `$STANDARD_INFORMATION`
attribute. -/
structure StdInfo where
  fileAlteredTime : Nat
  mftAlteredTime : Nat
  fileAccessedTime : Nat
  createTime : Nat
deriving DecidableEq

/-- One decoded `MFT_ENTRY`: its magic signature string, its record
number `mft.mft_entry`, the parent reference
`mft.filename.mftReference`, its name, and its decoded
`$STANDARD_INFORMATION` attribute.  Modelled from the spec: the
profile's `get_attribute(...).DecodeAttribute()` is not under `src/`;
per the spec's duck-typed maybe-absent contract a missing attribute
yields an absorbing placeholder rather than failing, embedded here as
`stdInfo = none`. -/
structure MftRecord where
  magic : String
  mftId : Nat
  parentId : Nat
  name : String
  stdInfo : Option StdInfo
deriving DecidableEq

/-- The magic signature of a live MFT record. -/
def magicFILE : String := "FILE"

/-- A value of the `dir_tree` dict: `__init__` seeds key 2 with an empty
*dict* (`{2: {}}`), while `extract_mft_entries_from_vacb` creates
child-*sets* (`set()`) for every other parent id. -/
inductive DirEntry where
  | emptyDict : DirEntry
  | childSet : Finset Nat → DirEntry
deriving DecidableEq

/-- The Python error that `.add` on a dict raises. -/
inductive PyError where
  | attributeError : PyError
deriving DecidableEq

/-- Ordered key-value store embedding a Python dict: assignment replaces
an existing key in place and appends a new one. -/
def upsert {α : Type} : List (Nat × α) → Nat → α → List (Nat × α)
  | [], k, v => [(k, v)]
  | (k', v') :: rest, k, v =>
    if k' = k then (k, v) :: rest else (k', v') :: upsert rest k v

/-- Dict lookup (`d[k]` / `k in d`): `none` embeds a missing key. -/
def alookup {α : Type} : List (Nat × α) → Nat → Option α
  | [], _ => none
  | (k', v') :: rest, k => if k' = k then some v' else alookup rest k

/-- The per-run state of `MftDump`: the sparse `self.mfts` table and the
`self.dir_tree` adjacency dict. -/
structure MftState where
  mfts : List (Nat × MftRecord)
  dirTree : List (Nat × DirEntry)
deriving DecidableEq

/-- `MftDump.__init__`: empty `mfts`, and `dir_tree = {2: {}}` — the
seed value for the root id 2 is an empty dict, not a set. -/
def initMftState : MftState :=
  ⟨[], [(2, DirEntry.emptyDict)]⟩

/-- `self.dir_tree[parent_id].add(mft_id)`: succeeds on a child-set,
raises `AttributeError` on the dict seed. -/
def dirEntryAdd (e : DirEntry) (child : Nat) : Except PyError DirEntry :=
  match e with
  | DirEntry.emptyDict => Except.error PyError.attributeError
  | DirEntry.childSet s => Except.ok (DirEntry.childSet (insert child s))

/-- The per-record body of `extract_mft_entries_from_vacb`: drop the
record unless its magic is `FILE`; otherwise store it by id, create the
parent's child-set on demand if the parent id is unseen, and add the id
to `dir_tree[parent_id]`. -/
def processRecord (st : MftState) (rec : MftRecord) :
    Except PyError MftState :=
  if rec.magic ≠ magicFILE then Except.ok st
  else
    let mfts1 := upsert st.mfts rec.mftId rec
    let dirTree1 :=
      if (alookup st.dirTree rec.parentId).isSome then st.dirTree
      else upsert st.dirTree rec.parentId (DirEntry.childSet ∅)
    match alookup dirTree1 rec.parentId with
    | none => Except.error PyError.attributeError
    | some e =>
      match dirEntryAdd e rec.mftId with
      | Except.error err => Except.error err
      | Except.ok e' => Except.ok ⟨mfts1, upsert dirTree1 rec.parentId e'⟩

/-- `extract_mft_entries_from_vacb` over the 1 KB records decoded from
one cache block, in offset order. -/
def extractEntries : MftState → List MftRecord → Except PyError MftState
  | st, [] => Except.ok st
  | st, rec :: rest =>
    match processRecord st rec with
    | Except.error err => Except.error err
    | Except.ok st1 => extractEntries st1 rest

/-- One rendered row of the tree listing: the id, the (maybe absent)
standard-information timestamps, the name and the depth. -/
structure Row where
  mftId : Nat
  stdInfo : Option StdInfo
  name : String
  depth : Nat
deriving DecidableEq

/-- `sorted(self.dir_tree.get(root, []))`: the children of `root` in
ascending id order; the dict seed and an absent key both sort to the
empty list. -/
def childrenOf (st : MftState) (root : Nat) : List Nat :=
  match alookup st.dirTree root with
  | none => []
  | some DirEntry.emptyDict => []
  | some (DirEntry.childSet s) => s.sort (· ≤ ·)

/-- The ids that have an entry in `self.mfts`. -/
def mftKeys (st : MftState) : Finset Nat :=
  (st.mfts.map Prod.fst).toFinset

theorem alookup_mem_map_fst {α : Type} {l : List (Nat × α)} {r : Nat} {m : α}
    (h : alookup l r = some m) : r ∈ l.map Prod.fst := by
  induction l with
  | nil => simp [alookup] at h
  | cons p rest ih =>
    rw [alookup] at h
    by_cases hk : p.1 = r
    · simp [hk]
    · simp only [hk, if_false] at h
      simp [ih h]

theorem lookup_mem_keys {st : MftState} {r : Nat} {m : MftRecord}
    (h : alookup st.mfts r = some m) : r ∈ mftKeys st := by
  unfold mftKeys
  rw [List.mem_toFinset]
  exact alookup_mem_map_fst h

theorem lexStep {a a' b b' : Nat} (hle : a' ≤ a) (hlt : b' < b) :
    Prod.Lex (· < ·) (· < ·) (a', b') (a, b) := by
  rcases lt_or_eq_of_le hle with h | h
  · exact Prod.Lex.left _ _ h
  · subst h
    exact Prod.Lex.right _ hlt

theorem sdiff_insert_card_lt {keys seen : Finset Nat} {r : Nat}
    (hk : r ∈ keys) (hs : r ∉ seen) :
    (keys \ insert r seen).card < (keys \ seen).card := by
  rw [Finset.sdiff_insert]
  exact Finset.card_erase_lt_of_mem (Finset.mem_sdiff.mpr ⟨hk, hs⟩)

theorem sdiff_union_card_le {keys seen extra : Finset Nat} :
    (keys \ (seen ∪ extra)).card ≤ (keys \ seen).card :=
  Finset.card_le_card
    (Finset.sdiff_subset_sdiff (le_refl _) Finset.subset_union_left)

/-- `MftDump.render_tree`, sequenced over a worklist of roots at one
depth (the recursion into the sorted children and the continuation with
the next root share the `seen` set, exactly as the Python recursion and
loop do).  The continuation runs with `seen ∪ (first call).2`; since
`render_tree` only ever grows `seen` (proved below as
`renderMany_seen_subset`) this union equals the first call's resulting
seen set, matching the source. -/
def renderMany (st : MftState) : List Nat → Finset Nat → Nat → List Row × Finset Nat
  | [], seen, _ => ([], seen)
  | root :: rest, seen, depth =>
    match hm : alookup st.mfts root with
    | none => renderMany st rest seen depth
    | some m =>
      if hs : root ∈ seen then renderMany st rest seen depth
      else
        let sub := renderMany st (childrenOf st root) (insert root seen) (depth + 1)
        let cont := renderMany st rest (seen ∪ sub.2) depth
        (⟨root, m.stdInfo, m.name, depth⟩ :: (sub.1 ++ cont.1), cont.2)
  termination_by l seen _ => ((mftKeys st \ seen).card, l.length)
  decreasing_by
  all_goals simp_wf
  · exact Prod.Lex.right _ (Nat.lt_succ_self _)
  · exact Prod.Lex.right _ (Nat.lt_succ_self _)
  · exact Prod.Lex.left _ _ (sdiff_insert_card_lt (lookup_mem_keys hm) hs)
  · exact lexStep sdiff_union_card_le (Nat.lt_succ_self _)

/-- `MftDump.render`: run `render_tree` from every `dir_tree` key with
one shared `seen` set, never reset. -/
def mftRender (st : MftState) : List Row × Finset Nat :=
  renderMany st (st.dirTree.map Prod.fst) ∅ 0

/-! ## Concrete fixtures used by witnesses and counterexamples -/

/-- An address space without `ResolveProtoPTE` (the fallback path) and a
small physical extent. -/
def asFixture : AddrSpace :=
  ⟨none, 0x100000, fun _ => none⟩

/-- A subsection declaring 4 full sectors whose single-entry PTE array
is all valid (low bit set, physical page 0). -/
def subFixture : Subsection :=
  ⟨0, 4, [1]⟩

/-- A control area with `subFixture` as its only subsection. -/
def caFixture : ControlArea :=
  ⟨[subFixture]⟩

/-- A live fixture VACB owned by table 5. -/
def vacbFixture : Vacb :=
  ⟨5, 0x1000, 0x77, 0⟩

/-- The fixture table that owns `vacbFixture`. -/
def tableFixture : VacbTable :=
  ⟨5, [vacbFixture]⟩

/-- A file object whose image section is `caFixture`. -/
def foWithData : FileObject :=
  ⟨"f", some caFixture, none, 0⟩

/-- A distinct file object with the same name and no data. -/
def foNoData : FileObject :=
  ⟨"f", none, none, 0⟩

/-- Two same-named distinct file objects, a third with its own name. -/
def foOther : FileObject :=
  ⟨"g", none, none, 3⟩

/-- A live MFT record, id 5, whose parent reference is 7. -/
def recParent7 : MftRecord :=
  ⟨"FILE", 5, 7, "five", some ⟨1, 1, 1, 1⟩⟩

/-- A live MFT record, id 5, whose parent reference is the root id 2. -/
def recParent2 : MftRecord :=
  ⟨"FILE", 5, 2, "five", some ⟨1, 1, 1, 1⟩⟩

/-- A live self-parented record, id 7, with no standard-information
attribute. -/
def recSelf7 : MftRecord :=
  ⟨"FILE", 7, 7, "seven", none⟩

/-- The builder state reached by extracting `recSelf7`. -/
def stSelf7 : MftState :=
  ⟨[(7, recSelf7)],
   [(2, DirEntry.emptyDict), (7, DirEntry.childSet (insert 7 ∅))]⟩

/-! ## C2 — layout dispatch of the VACB enumerator -/

/-- C2: the layout dispatch of `GetVACBs` is decided once, solely by
whether the legacy global `CcVacbs` resolves to a non-null value.  If it
does, the output is the legacy array emitted entry by entry and depends
on nothing but that legacy global (the newer multi-table globals are
never consulted); if it is null, the output is the Win7 multi-table walk
and depends on nothing but the newer tables (the legacy global is never
consulted beyond the null test). -/
theorem getVACBs_dispatch_exclusive :
    (∀ (s : Snapshot) (arr : List Vacb), s.ccVacbs = some arr →
      GetVACBs s = GetVACBs_WinXP arr) ∧
    (∀ s : Snapshot, s.ccVacbs = none →
      GetVACBs s = GetVACBs_Win7 s.ccVacbArrays) ∧
    (∀ s t : Snapshot, s.ccVacbs = t.ccVacbs → s.ccVacbs.isSome = true →
      GetVACBs s = GetVACBs t) ∧
    (∀ s t : Snapshot, s.ccVacbs = none → t.ccVacbs = none →
      s.ccVacbArrays = t.ccVacbArrays → GetVACBs s = GetVACBs t) := by
  refine ⟨?_, ?_, ?_, ?_⟩
  · intro s arr h
    simp [GetVACBs, h]
  · intro s h
    simp [GetVACBs, h]
  · intro s t hst hs
    cases hsome : s.ccVacbs with
    | none => rw [hsome] at hs; simp at hs
    | some arr =>
      have ht : t.ccVacbs = some arr := hst.symm.trans hsome
      simp [GetVACBs, hsome, ht]
  · intro s t hs ht harr
    simp [GetVACBs, hs, ht, harr]

/-- Witness for C2: a concrete snapshot with a resolving legacy global
takes the legacy path. -/
theorem getVACBs_dispatch_exclusive_witness :
    GetVACBs ⟨some [vacbFixture], [tableFixture]⟩ =
      GetVACBs_WinXP [vacbFixture] :=
  getVACBs_dispatch_exclusive.1 ⟨some [vacbFixture], [tableFixture]⟩
    [vacbFixture] rfl

/-! ## C7 — stale-entry filter of the Win7 layout -/

/-- C7: every slot the Win7 walk emits from a table has its `ArrayHead`
back-reference equal to that table, a slot of a table whose
back-reference differs is never emitted from it, and every slot of the
full enumeration comes from some table whose identity its back-reference
matches. -/
theorem win7_stale_entry_filter :
    (∀ (t : VacbTable) (v : Vacb), v ∈ win7TableEmit t →
      v.arrayHead = t.idx ∧ v ∈ t.vacbs) ∧
    (∀ (t : VacbTable) (v : Vacb), v ∈ t.vacbs → v.arrayHead ≠ t.idx →
      v ∉ win7TableEmit t) ∧
    (∀ (tables : List VacbTable) (v : Vacb), v ∈ GetVACBs_Win7 tables →
      ∃ t ∈ tables, v ∈ t.vacbs ∧ v.arrayHead = t.idx) := by
  refine ⟨?_, ?_, ?_⟩
  · intro t v hv
    rw [win7TableEmit, List.mem_filter] at hv
    exact ⟨by simpa using hv.2, hv.1⟩
  · intro t v _ hne hv
    rw [win7TableEmit, List.mem_filter] at hv
    exact hne (by simpa using hv.2)
  · intro tables v hv
    rw [GetVACBs_Win7, List.mem_flatMap] at hv
    obtain ⟨t, ht, hv⟩ := hv
    rw [win7TableEmit, List.mem_filter] at hv
    exact ⟨t, ht, hv.1, by simpa using hv.2⟩

/-- Witness for C7: the fixture slot is emitted from its owning fixture
table and its back-reference matches. -/
theorem win7_stale_entry_filter_witness :
    vacbFixture.arrayHead = tableFixture.idx ∧
    vacbFixture ∈ tableFixture.vacbs :=
  win7_stale_entry_filter.1 tableFixture vacbFixture (by decide)

/-! ## Backing-store walker lemmas -/

/-- The clamped sector count of page `i` of subsection `sub`, as an
integer (it goes negative on corrupt metadata). -/
def clampedSectors (sub : Subsection) (i : Nat) : Int :=
  min (sectorsPerPage : Int)
    ((sub.numberOfFullSectors : Int) - (i : Int) * (sectorsPerPage : Int))

theorem pageRange_eq_some {a : AddrSpace} {sub : Subsection} {i pte : Nat}
    {r : Range} (h : pageRange a sub i pte = some r) :
    ∃ p, decodePte a pte = some p ∧ ¬ clampedSectors sub i < 0 ∧
      r = ⟨p, (sub.startingSector + i * sectorsPerPage) * 512,
           (clampedSectors sub i).toNat * 512⟩ := by
  rw [pageRange] at h
  cases hd : decodePte a pte with
  | none => rw [hd] at h; cases h
  | some p =>
    rw [hd] at h
    dsimp only at h
    simp only [clampedSectors]
    split_ifs at h with h1 h2
    · injection h with h3
      exact ⟨p, rfl, h1, h3.symm⟩

theorem walkPtes_byteSum_le (a : AddrSpace) (sub : Subsection) :
    ∀ (l : List Nat) (i : Nat),
      byteSum (walkPtes a sub l i) ≤
        512 * ((sub.numberOfFullSectors : Int) -
          (i : Int) * (sectorsPerPage : Int)).toNat := by
  intro l
  induction l with
  | nil => intro i; simp [walkPtes, byteSum]
  | cons pte rest ih =>
    intro i
    have hmono : ((sub.numberOfFullSectors : Int) -
          ((i : Int) + 1) * (sectorsPerPage : Int)).toNat ≤
        ((sub.numberOfFullSectors : Int) -
          (i : Int) * (sectorsPerPage : Int)).toNat := by
      have hsp : (sectorsPerPage : Int) = 8 := by decide
      rw [hsp]
      omega
    rw [walkPtes]
    cases h : pageRange a sub i pte with
    | none =>
      calc byteSum (walkPtes a sub rest (i + 1)) ≤
            512 * ((sub.numberOfFullSectors : Int) -
              ((i : Int) + 1) * (sectorsPerPage : Int)).toNat := by
              have := ih (i + 1)
              simpa using this
        _ ≤ _ := Nat.mul_le_mul_left 512 hmono
    | some r =>
      obtain ⟨p, _, hcl, hr⟩ := pageRange_eq_some h
      have hkey : (clampedSectors sub i).toNat +
          ((sub.numberOfFullSectors : Int) -
            ((i : Int) + 1) * (sectorsPerPage : Int)).toNat ≤
          ((sub.numberOfFullSectors : Int) -
            (i : Int) * (sectorsPerPage : Int)).toNat := by
        rw [clampedSectors] at hcl ⊢
        have hsp : (sectorsPerPage : Int) = 8 := by decide
        rw [hsp] at hcl ⊢
        omega
      calc byteSum (r :: walkPtes a sub rest (i + 1)) =
            r.byteLen + byteSum (walkPtes a sub rest (i + 1)) := by
              simp [byteSum]
        _ ≤ (clampedSectors sub i).toNat * 512 +
              512 * ((sub.numberOfFullSectors : Int) -
                ((i : Int) + 1) * (sectorsPerPage : Int)).toNat := by
              apply Nat.add_le_add
              · rw [hr]
              · have := ih (i + 1)
                simpa using this
        _ = 512 * ((clampedSectors sub i).toNat +
              ((sub.numberOfFullSectors : Int) -
                ((i : Int) + 1) * (sectorsPerPage : Int)).toNat) := by ring
        _ ≤ _ := Nat.mul_le_mul_left 512 hkey

theorem walkPtes_fileOffset_ge (a : AddrSpace) (sub : Subsection) :
    ∀ (l : List Nat) (i : Nat), ∀ r ∈ walkPtes a sub l i,
      sub.startingSector * 512 ≤ r.fileOffset := by
  intro l
  induction l with
  | nil => intro i r hr; simp [walkPtes] at hr
  | cons pte rest ih =>
    intro i r hr
    rw [walkPtes] at hr
    cases h : pageRange a sub i pte with
    | none =>
      rw [h] at hr
      exact ih (i + 1) r hr
    | some r' =>
      rw [h] at hr
      rcases List.mem_cons.mp hr with hEq | hmem
      · obtain ⟨p, _, _, hr'⟩ := pageRange_eq_some h
        subst hEq
        rw [hr']
        exact Nat.mul_le_mul_right 512 (Nat.le_add_right _ _)
      · exact ih (i + 1) r hmem

/-! ## C3 — per-subsection byte-range bounds -/

/-- C3: for every subsection of a walked chain, the byte lengths of the
ranges the walker emits for it sum to at most the subsection's declared
sector count times the sector size 512, and no emitted range has a file
offset earlier than the subsection's starting sector times 512. -/
theorem dump_subsection_bounds (a : AddrSpace) (ca : ControlArea)
    (sub : Subsection) (hsub : sub ∈ ca.subsections) :
    byteSum (dumpSubsection a sub) ≤ sub.numberOfFullSectors * 512 ∧
    ∀ r ∈ dumpSubsection a sub, sub.startingSector * 512 ≤ r.fileOffset := by
  constructor
  · have h := walkPtes_byteSum_le a sub sub.ptes 0
    rw [dumpSubsection]
    calc byteSum (walkPtes a sub sub.ptes 0) ≤
          512 * ((sub.numberOfFullSectors : Int) -
            (0 : Int) * (sectorsPerPage : Int)).toNat := by simpa using h
      _ = sub.numberOfFullSectors * 512 := by
          simp [Nat.mul_comm]
  · intro r hr
    exact walkPtes_fileOffset_ge a sub sub.ptes 0 r hr

/-- Witness for C3: the bounds evaluated on the concrete fixture
chain. -/
theorem dump_subsection_bounds_witness :
    byteSum (dumpSubsection asFixture subFixture) ≤
      subFixture.numberOfFullSectors * 512 ∧
    ∀ r ∈ dumpSubsection asFixture subFixture,
      subFixture.startingSector * 512 ≤ r.fileOffset :=
  dump_subsection_bounds asFixture caFixture subFixture (by decide)

/-! ## C5 — the walker degrades every anomaly to a skipped page -/

/-- C5: the walker is a total function that raises nothing; a page whose
clamped sector count comes out negative is skipped, a page whose PTE
resolution returns no mapping is skipped, a page whose resolved physical
address lies beyond the physical extent is skipped, and in every such
case no byte range is emitted for the page and the walk continues with
the next page index. -/
theorem walker_skips_anomalies :
    (∀ (a : AddrSpace) (sub : Subsection) (i pte : Nat),
      clampedSectors sub i < 0 → pageRange a sub i pte = none) ∧
    (∀ (a : AddrSpace) (sub : Subsection) (i pte : Nat),
      decodePte a pte = none → pageRange a sub i pte = none) ∧
    (∀ (a : AddrSpace) (sub : Subsection) (i pte p : Nat),
      decodePte a pte = some p → p > a.physEnd →
      pageRange a sub i pte = none) ∧
    (∀ (a : AddrSpace) (sub : Subsection) (pte : Nat) (rest : List Nat)
      (i : Nat), pageRange a sub i pte = none →
      walkPtes a sub (pte :: rest) i = walkPtes a sub rest (i + 1)) := by
  refine ⟨?_, ?_, ?_, ?_⟩
  · intro a sub i pte hneg
    rw [pageRange]
    cases hd : decodePte a pte with
    | none => rfl
    | some p =>
      dsimp only
      rw [clampedSectors] at hneg
      rw [if_pos hneg]
  · intro a sub i pte hd
    rw [pageRange, hd]
  · intro a sub i pte p hd hbeyond
    rw [pageRange, hd]
    dsimp only
    split_ifs
    · rfl
    · rfl
  · intro a sub pte rest i hskip
    rw [walkPtes, hskip]

/-- Witness for C5: a resolution returning no mapping on the fixture
subsection skips the page. -/
theorem walker_skips_anomalies_witness :
    pageRange ⟨some (fun _ => none), 0x100000, fun _ => none⟩
      subFixture 0 1 = none :=
  walker_skips_anomalies.2.1 ⟨some (fun _ => none), 0x100000, fun _ => none⟩
    subFixture 0 1 rfl

/-! ## C10 — the synthetic four-sector control area -/

/-- C10 counterexample: on the synthetic control area with one
subsection of 4 full sectors and an all-valid PTE array the walker
emits one range (of 4 sectors at file offset 0), not
`4 * sector_size / page_size` ranges as claimed: with the code's fixed
sizes that expression is `4 * 512 / 4096`, which no emitted-range count
can equal. -/
theorem dump_ca_four_sectors_count :
    dumpCa asFixture caFixture = [⟨0, 0, 2048⟩] ∧
    (dumpCa asFixture caFixture).length ≠ 4 * 512 / 4096 := by
  constructor
  · decide
  · decide

/-- C10 amended: on the synthetic four-sector control area the walker
emits exactly one contiguous range, at file offset 0, covering the 4
declared sectors (2048 bytes). -/
theorem dump_ca_four_sectors_one_range :
    (dumpCa asFixture caFixture).length = 1 ∧
    (dumpCa asFixture caFixture).map Range.fileOffset = [0] ∧
    byteSum (dumpCa asFixture caFixture) = 4 * 512 := by
  refine ⟨by decide, by decide, by decide⟩

/-! ## C1 — registering a child of the root id 2 -/

/-- C1: a live record whose parent reference is an unseen id (here 7)
is recorded by id and registered in a freshly created child-set, but a
live record whose parent reference is the well-known root id 2 hits the
dict value that `__init__` seeded `dir_tree` with (`{2: {}}` — an empty
dict, not an empty set), and `dir_tree[2].add(mft_id)` raises
`AttributeError` instead of registering the child. -/
theorem extract_parent_two_raises :
    extractEntries initMftState [recParent7] =
      Except.ok ⟨[(5, recParent7)],
        [(2, DirEntry.emptyDict), (7, DirEntry.childSet (insert 5 ∅))]⟩ ∧
    extractEntries initMftState [recParent2] =
      Except.error PyError.attributeError := by
  exact ⟨rfl, rfl⟩

/-! ## Reconstructor dedup lemmas -/

theorem renderLoop_names_not_seen (a : AddrSpace) (vacbs : List Vacb) :
    ∀ (fos : List FileObject) (seen : List String),
      ∀ s ∈ renderLoop a vacbs fos seen, s.1 ∉ seen := by
  intro fos
  induction fos with
  | nil => intro seen s hs; simp [renderLoop] at hs
  | cons fo rest ih =>
    intro seen s hs
    rw [renderLoop] at hs
    split_ifs at hs with hmem
    · exact ih seen s hs
    · rcases List.mem_cons.mp hs with hEq | htail
      · rw [hEq]
        exact hmem
      · have := ih (normName fo :: seen) s htail
        intro hcontra
        exact this (List.mem_cons_of_mem _ hcontra)

theorem renderLoop_count_zero_of_seen (a : AddrSpace) (vacbs : List Vacb)
    (fos : List FileObject) (seen : List String) (n : String)
    (hn : n ∈ seen) :
    List.countP (fun s => s.1 == n) (renderLoop a vacbs fos seen) = 0 := by
  rw [List.countP_eq_zero]
  intro s hs
  have := renderLoop_names_not_seen a vacbs fos seen s hs
  simp only [beq_iff_eq]
  intro hEq
  rw [hEq] at this
  exact this hn

theorem renderLoop_first_wins (a : AddrSpace) (vacbs : List Vacb) :
    ∀ (fos : List FileObject) (seen : List String) (n : String)
      (fo : FileObject), n ∉ seen →
      List.find? (fun f => normName f == n) fos = some fo →
      List.countP (fun s => s.1 == n) (renderLoop a vacbs fos seen) = 1 ∧
      List.find? (fun s => s.1 == n) (renderLoop a vacbs fos seen) =
        some (n, dumpObject a vacbs fo) := by
  intro fos
  induction fos with
  | nil => intro seen n fo _ hfind; simp at hfind
  | cons f rest ih =>
    intro seen n fo hn hfind
    by_cases hname : normName f = n
    · rw [List.find?_cons_of_pos _ (by simpa using hname)] at hfind
      have hfo : f = fo := by injection hfind
      subst hfo
      have hnotseen : normName f ∉ seen := by rw [hname]; exact hn
      simp only [renderLoop]
      rw [if_neg hnotseen]
      refine ⟨?_, ?_⟩
      · rw [List.countP_cons]
        rw [renderLoop_count_zero_of_seen a vacbs rest (normName f :: seen) n
          (by simp [hname])]
        simp [hname]
      · rw [List.find?_cons_of_pos _ (by simpa using hname)]
        rw [hname]
    · rw [List.find?_cons_of_neg _ (by simpa using hname)] at hfind
      simp only [renderLoop]
      split_ifs with hmem
      · exact ih seen n fo hn hfind
      · have hn' : n ∉ normName f :: seen := by
          intro hc
          rcases List.mem_cons.mp hc with hEq | htail
          · exact hname hEq.symm
          · exact hn htail
        obtain ⟨hc, hf⟩ := ih (normName f :: seen) n fo hn' hfind
        refine ⟨?_, ?_⟩
        · rw [List.countP_cons]
          simpa [hname] using hc
        · rw [List.find?_cons_of_neg _ (by simpa using hname)]
          exact hf

/-! ## C6 — first-seen-wins filename deduplication -/

/-- C6: when the first candidate in iteration order whose normalized
name is `n` is `fo`, exactly one output stream is produced under `n`,
and it is `fo`'s data; later candidates normalizing to `n` contribute
nothing. -/
theorem render_first_seen_wins (a : AddrSpace) (vacbs : List Vacb)
    (fos : List FileObject) (n : String) (fo : FileObject)
    (hfind : List.find? (fun f => normName f == n) fos = some fo) :
    List.countP (fun s => s.1 == n) (renderStreams a vacbs fos) = 1 ∧
    List.find? (fun s => s.1 == n) (renderStreams a vacbs fos) =
      some (n, dumpObject a vacbs fo) := by
  rw [renderStreams]
  exact renderLoop_first_wins a vacbs fos [] n fo (by simp) hfind

/-- Witness for C6: two distinct candidates named `f`; the stream under
`f` is the first one's. -/
theorem render_first_seen_wins_witness :
    List.countP (fun s => s.1 == "f")
      (renderStreams asFixture [] [foWithData, foNoData]) = 1 ∧
    List.find? (fun s => s.1 == "f")
      (renderStreams asFixture [] [foWithData, foNoData]) =
      some ("f", dumpObject asFixture [] foWithData) :=
  render_first_seen_wins asFixture [] [foWithData, foNoData] "f" foWithData
    (by decide)

/-! ## C8 — determinism over the unordered candidate set -/

/-- C8 counterexample: the candidate file objects live in an unordered
set, and Python fixes no iteration order for it across runs; with two
distinct same-named candidates the output stream depends on that order,
so byte-identical output across runs is not guaranteed.  Concretely,
the two enumeration orders of the same two-element candidate set yield
different streams. -/
theorem render_order_dependent :
    List.Perm [foWithData, foNoData] [foNoData, foWithData] ∧
    renderStreams asFixture [] [foWithData, foNoData] ≠
      renderStreams asFixture [] [foNoData, foWithData] := by
  constructor
  · decide
  · decide

theorem renderLoop_eq_map (a : AddrSpace) (vacbs : List Vacb) :
    ∀ (fos : List FileObject) (seen : List String),
      (∀ f ∈ fos, normName f ∉ seen) →
      List.Pairwise (fun f g => normName f ≠ normName g) fos →
      renderLoop a vacbs fos seen =
        fos.map (fun fo => (normName fo, dumpObject a vacbs fo)) := by
  intro fos
  induction fos with
  | nil => intro seen _ _; rfl
  | cons fo rest ih =>
    intro seen hseen hpw
    have hfo : normName fo ∉ seen := hseen fo (List.mem_cons_self fo rest)
    simp only [renderLoop]
    rw [if_neg hfo]
    rw [List.pairwise_cons] at hpw
    rw [List.map_cons]
    congr 1
    apply ih
    · intro f hf hc
      rcases List.mem_cons.mp hc with hEq | htail
      · exact hpw.1 f hf hEq.symm
      · exact hseen f (List.mem_cons_of_mem fo hf) htail
    · exact hpw.2

/-- C8 amended: the reconstruction is order-independent (hence
deterministic over an unchanged snapshot) provided no two distinct
candidates normalize to the same output filename: any two enumeration
orders of the candidate set produce the same multiset of
`(filename, stream)` outputs.  With a name collision the winner depends
on the set iteration order, which the runtime does not fix across
runs. -/
theorem render_perm_deterministic (a : AddrSpace) (vacbs : List Vacb)
    (fos1 fos2 : List FileObject) (hperm : List.Perm fos1 fos2)
    (hpw : List.Pairwise (fun f g => normName f ≠ normName g) fos1) :
    List.Perm (renderStreams a vacbs fos1) (renderStreams a vacbs fos2) := by
  have hpw2 : List.Pairwise (fun f g => normName f ≠ normName g) fos2 :=
    (hperm.pairwise_iff (fun h => Ne.symm h)).mp hpw
  rw [renderStreams, renderStreams]
  rw [renderLoop_eq_map a vacbs fos1 [] (by simp) hpw]
  rw [renderLoop_eq_map a vacbs fos2 [] (by simp) hpw2]
  exact hperm.map _

/-- Witness for C8 amended: distinct names, both orders, equal
multisets of streams. -/
theorem render_perm_deterministic_witness :
    List.Perm (renderStreams asFixture [] [foWithData, foOther])
      (renderStreams asFixture [] [foOther, foWithData]) :=
  render_perm_deterministic asFixture [] [foWithData, foOther]
    [foOther, foWithData] (by decide) (by decide)

/-! ## Tree-render unfolding lemmas -/

theorem renderMany_cons_absent {st : MftState} {root : Nat} (rest : List Nat)
    (seen : Finset Nat) (d : Nat) (h : alookup st.mfts root = none) :
    renderMany st (root :: rest) seen d = renderMany st rest seen d := by
  rw [renderMany.eq_2]
  split
  · rfl
  · rename_i m heq
    rw [h] at heq
    cases heq

theorem renderMany_cons_seen {st : MftState} {root : Nat} {m : MftRecord}
    (rest : List Nat) (seen : Finset Nat) (d : Nat)
    (h : alookup st.mfts root = some m) (hs : root ∈ seen) :
    renderMany st (root :: rest) seen d = renderMany st rest seen d := by
  rw [renderMany.eq_2]
  split
  · rfl
  · rename_i m' heq
    rw [dif_pos hs]

theorem renderMany_cons_new {st : MftState} {root : Nat} {m : MftRecord}
    (rest : List Nat) (seen : Finset Nat) (d : Nat)
    (h : alookup st.mfts root = some m) (hs : root ∉ seen) :
    renderMany st (root :: rest) seen d =
      ((⟨root, m.stdInfo, m.name, d⟩ : Row) ::
        ((renderMany st (childrenOf st root) (insert root seen) (d + 1)).1 ++
         (renderMany st rest
           (seen ∪ (renderMany st (childrenOf st root)
             (insert root seen) (d + 1)).2) d).1),
       (renderMany st rest
         (seen ∪ (renderMany st (childrenOf st root)
           (insert root seen) (d + 1)).2) d).2) := by
  rw [renderMany.eq_2]
  split
  · rename_i heq
    rw [heq] at h
    cases h
  · rename_i m' heq
    have hm' : m' = m := by
      rw [heq] at h
      injection h
    subst hm'
    rw [dif_neg hs]

/-- The shared invariant of the tree render: the seen set only grows,
every rendered id was previously unseen and is seen afterwards, and the
rendered ids are pairwise distinct. -/
theorem renderMany_invariant (st : MftState) :
    ∀ (l : List Nat) (seen : Finset Nat) (d : Nat),
      seen ⊆ (renderMany st l seen d).2 ∧
      (∀ i ∈ (renderMany st l seen d).1.map Row.mftId,
        i ∉ seen ∧ i ∈ (renderMany st l seen d).2) ∧
      ((renderMany st l seen d).1.map Row.mftId).Nodup := by
  intro l seen d
  induction l, seen, d using renderMany.induct st with
  | case1 seen d =>
    rw [renderMany.eq_1]
    simp
  | case2 root rest seen d h ih =>
    rw [renderMany_cons_absent rest seen d h]
    exact ih
  | case3 root rest seen d m h hs ih =>
    rw [renderMany_cons_seen rest seen d h hs]
    exact ih
  | case4 root rest seen d m h hs sub ih1 ih2 =>
    rw [renderMany_cons_new rest seen d h hs]
    obtain ⟨ih1a, ih1b, ih1c⟩ := ih1
    obtain ⟨ih2a, ih2b, ih2c⟩ := ih2
    have hrootsub : root ∈
        (renderMany st (childrenOf st root) (insert root seen) (d + 1)).2 :=
      ih1a (Finset.mem_insert_self root seen)
    have hrootcont : root ∈
        (renderMany st rest
          (seen ∪ (renderMany st (childrenOf st root)
            (insert root seen) (d + 1)).2) d).2 :=
      ih2a (Finset.mem_union_right _ hrootsub)
    refine ⟨?_, ?_, ?_⟩
    · intro x hx
      exact ih2a (Finset.mem_union_left _ hx)
    · intro i hi
      simp only [List.map_cons, List.map_append, List.mem_cons,
        List.mem_append] at hi
      rcases hi with hEq | h1 | h2
      · subst hEq
        exact ⟨hs, hrootcont⟩
      · obtain ⟨hi1, hi2⟩ := ih1b i h1
        refine ⟨fun hc => hi1 (Finset.mem_insert_of_mem hc), ?_⟩
        exact ih2a (Finset.mem_union_right _ hi2)
      · obtain ⟨hi1, hi2⟩ := ih2b i h2
        exact ⟨fun hc => hi1 (Finset.mem_union_left _ hc), hi2⟩
    · simp only [List.map_cons, List.map_append]
      rw [List.nodup_cons]
      refine ⟨?_, ?_⟩
      · rw [List.mem_append]
        rintro (h1 | h2)
        · exact (ih1b root h1).1 (Finset.mem_insert_self root seen)
        · exact (ih2b root h2).1 (Finset.mem_union_right _ hrootsub)
      · refine List.Nodup.append ih1c ih2c ?_
        rw [List.disjoint_left]
        intro i h1 h2
        exact (ih2b i h2).1
          (Finset.mem_union_right _ (ih1b i h1).2)

/-! ## C4 — termination and at-most-once rendering -/

/-- C4: the directory-tree traversal is a total function (it is
well-founded over the unseen portion of the id-to-entry table, so it
terminates on every input, cyclic parent graphs included), and across
the whole render — all roots, one shared seen set that is never
reset — every MFT id is rendered at most once. -/
theorem mft_render_each_id_once (st : MftState) :
    ((mftRender st).1.map Row.mftId).Nodup := by
  rw [mftRender]
  exact (renderMany_invariant st (st.dirTree.map Prod.fst) ∅ 0).2.2

/-! ## C9 — branch-local failure semantics of the tree render -/

/-- C9 amended: an id without an entry in the sparse mapping aborts only
its branch (no row, no recursion) and the traversal continues with the
remaining worklist; an entry whose standard-information attribute is
missing does not abort its row — the row is emitted with the absent
placeholder in the timestamp columns; an id already in the seen set
(cycle) is silently truncated, not reported: the render is a total
function. -/
theorem render_tree_branch_semantics :
    (∀ (st : MftState) (root : Nat) (rest : List Nat) (seen : Finset Nat)
      (d : Nat), alookup st.mfts root = none →
      renderMany st (root :: rest) seen d = renderMany st rest seen d) ∧
    (∀ (st : MftState) (root : Nat) (rest : List Nat) (seen : Finset Nat)
      (d : Nat) (m : MftRecord), alookup st.mfts root = some m →
      root ∉ seen → m.stdInfo = none →
      ∃ tail, (renderMany st (root :: rest) seen d).1 =
        (⟨root, none, m.name, d⟩ : Row) :: tail) ∧
    (∀ (st : MftState) (root : Nat) (rest : List Nat) (seen : Finset Nat)
      (d : Nat) (m : MftRecord), alookup st.mfts root = some m →
      root ∈ seen →
      renderMany st (root :: rest) seen d = renderMany st rest seen d) := by
  refine ⟨?_, ?_, ?_⟩
  · intro st root rest seen d h
    exact renderMany_cons_absent rest seen d h
  · intro st root rest seen d m h hs hstd
    rw [renderMany_cons_new rest seen d h hs]
    exact ⟨_, by rw [hstd]⟩
  · intro st root rest seen d m h hs
    exact renderMany_cons_seen rest seen d h hs

/-- Witness for C9 amended: the placeholder row of the concrete
self-parented record without standard information. -/
theorem render_tree_branch_semantics_witness :
    ∃ tail, (renderMany stSelf7 [7] ∅ 0).1 =
      (⟨7, none, recSelf7.name, 0⟩ : Row) :: tail :=
  render_tree_branch_semantics.2.1 stSelf7 7 [] ∅ 0 recSelf7 rfl
    (Finset.not_mem_empty 7) rfl

/-- C9 counterexample: the builder state reached by extracting one live
self-parented record with no standard-information attribute still
renders that record's row (with placeholder timestamps) — the row is
not aborted as claimed. -/
theorem mft_missing_stdinfo_row_rendered :
    recSelf7.stdInfo = none ∧
    extractEntries initMftState [recSelf7] = Except.ok stSelf7 ∧
    (mftRender stSelf7).1 = [⟨7, none, "seven", 0⟩] := by
  refine ⟨rfl, rfl, ?_⟩
  have h2 : alookup stSelf7.mfts 2 = none := rfl
  have h7 : alookup stSelf7.mfts 7 = some recSelf7 := rfl
  have hc7 : childrenOf stSelf7 7 = [7] := by
    show Finset.sort (· ≤ ·) (insert 7 ∅) = [7]
    rw [show (insert 7 (∅ : Finset Nat)) = {7} from rfl, Finset.sort_singleton]
  rw [mftRender]
  rw [show stSelf7.dirTree.map Prod.fst = [2, 7] from rfl]
  rw [renderMany_cons_absent [7] ∅ 0 h2]
  rw [renderMany_cons_new [] ∅ 0 h7 (Finset.not_mem_empty 7)]
  rw [hc7]
  rw [renderMany_cons_seen [] (insert 7 ∅) 1 h7 (Finset.mem_insert_self 7 ∅)]
  simp only [renderMany.eq_1]
  rfl

end RekallCache
